import Mathlib

/-!
Verification development for the RibbinDexer document indexer/retriever
(single Python source file `Ribbindexer.py`).

The Python code is shallowly embedded: pure fragments become Lean
functions, the SQLite catalog becomes a list of records, the filesystem
becomes explicit parameters (a directory tree, a byte-content oracle),
and the stateful retrieval loop becomes a fold over an explicit state.
Machine-level concerns (threads, tkinter widgets, actual file IO) are
outside the model; the algorithmic content of `extract_text_from_file`,
`index_directory` and `retrieve_documents` is embedded faithfully,
branch by branch.
-/

namespace Ribbindexer

/-! ### Python string primitives -/

/-- The six ASCII whitespace characters stripped by Python's `str.strip()`. -/
def pyWhitespace : List Char := [' ', '\t', '\n', '\r', '\x0b', '\x0c']

/-- Model of Python `str.strip()` (ASCII whitespace, both ends). -/
def pyStrip (s : String) : String :=
  ⟨((s.data.dropWhile (fun c => c ∈ pyWhitespace)).reverse.dropWhile
      (fun c => c ∈ pyWhitespace)).reverse⟩

/-- Model of Python `str.lower()` (ASCII letters), written over the
character data so that it evaluates by kernel reduction. -/
def pyLower (s : String) : String := ⟨s.data.map Char.toLower⟩

/-- Splitting on `','` as Python `str.split(',')` does (no separator
collapsing; an empty string yields one empty field). -/
def splitCommaCL : List Char → List (List Char)
  | [] => [[]]
  | c :: cs =>
    if c = ',' then [] :: splitCommaCL cs
    else
      match splitCommaCL cs with
      | [] => [[c]]
      | h :: t => (c :: h) :: t

/-- String form of `splitCommaCL`. -/
def pySplitComma (s : String) : List String :=
  (splitCommaCL s.data).map (fun l => ⟨l⟩)

/-- Index of the last `.` in a character list, if any. -/
def lastDotIdx (cs : List Char) : Option Nat :=
  match cs.reverse.findIdx? (fun c => c = '.') with
  | some i => some (cs.length - 1 - i)
  | none => none

/-- Model of Python `os.path.splitext` on a bare file name: split at the
last dot, provided some non-dot character precedes it (so `.bashrc` has
no extension), otherwise the extension is empty. -/
def splitext (s : String) : String × String :=
  let cs := s.data
  match lastDotIdx cs with
  | none => (s, "")
  | some di =>
    if (cs.take di).any (fun c => c ≠ '.') then (⟨cs.take di⟩, ⟨cs.drop di⟩)
    else (s, "")

/-- Model of Python `os.path.join` for the paths produced by the walk
(directory paths never carry a trailing separator). -/
def pjoin (root fn : String) : String := root ++ "/" ++ fn

/-- Little-endian decimal digits of a natural number (empty for 0). -/
def natDigitsLE (n : Nat) : List Nat :=
  if h : n = 0 then []
  else (n % 10) :: natDigitsLE (n / 10)
decreasing_by exact Nat.div_lt_self (Nat.pos_of_ne_zero h) (by omega)

/-- Value of a little-endian digit list. -/
def valLE : List Nat → Nat
  | [] => 0
  | d :: ds => d + 10 * valLE ds

/-- Decimal digit characters. -/
def digitChar : Nat → Char
  | 0 => '0' | 1 => '1' | 2 => '2' | 3 => '3' | 4 => '4'
  | 5 => '5' | 6 => '6' | 7 => '7' | 8 => '8' | 9 => '9'
  | _ => '*'

/-- Decimal rendering of a natural number, as produced by a Python
f-string interpolation of a non-negative int. -/
def natRepr (n : Nat) : String :=
  if n = 0 then "0" else ⟨((natDigitsLE n).map digitChar).reverse⟩

/-- SQLite BINARY-collation comparison (`<=`) on TEXT values, i.e.
lexicographic comparison of the code points (all strings compared by the
program are ASCII, where this agrees with byte order). -/
def charListLe : List Char → List Char → Bool
  | [], _ => true
  | _ :: _, [] => false
  | a :: as, b :: bs =>
    if a.toNat < b.toNat then true
    else if a.toNat = b.toNat then charListLe as bs
    else false

/-- String form of the SQLite `<=` comparison. -/
def sqliteTextLe (a b : String) : Bool := charListLe a.data b.data

/-- Whether the first list is an initial segment of the second. -/
def isPrefixCL : List Char → List Char → Bool
  | [], _ => true
  | _ :: _, [] => false
  | a :: as, b :: bs => a = b && isPrefixCL as bs

/-- Whether the first list occurs contiguously inside the second. -/
def isInfixCL (needle : List Char) : List Char → Bool
  | [] => needle.isEmpty
  | b :: bs => isPrefixCL needle (b :: bs) || isInfixCL needle bs

/-- Model of SQLite `column LIKE '%term%'`: substring containment,
case-insensitive over ASCII letters (SQLite's default LIKE folding).
Wildcard characters inside the user term are not modelled. -/
def likeContains (hay term : String) : Bool :=
  isInfixCL (pyLower term).data (pyLower hay).data

/-! ### Format extractor (`extract_text_from_file`) -/

/-- A spreadsheet cell value as seen by the Python extractors:
an empty cell (`None`), a string, or a number. -/
inductive Cell where
  | blank
  | str (s : String)
  | num (n : Int)
deriving DecidableEq

/-- Python `str(cell)`. -/
def cellStr : Cell → String
  | .blank => "None"
  | .str s => s
  | .num n => toString n

/-- Python truthiness of a cell value (`if cell:`). -/
def cellTruthy : Cell → Bool
  | .blank => false
  | .str s => s ≠ ""
  | .num n => n ≠ 0

/-- Row text for `.xlsx`: join the cells that are not `None` with one
space (`' '.join(str(cell) for cell in row if cell is not None)`). -/
def rowTextXlsx (row : List Cell) : String :=
  String.intercalate " " ((row.filter (fun c => c ≠ Cell.blank)).map cellStr)

/-- Row text for `.xls`: join the truthy cells with one space
(`' '.join(str(cell) for cell in row if cell)`). -/
def rowTextXls (row : List Cell) : String :=
  String.intercalate " " ((row.filter cellTruthy).map cellStr)

/-- Extracted text of an `.xlsx` workbook: rows of all sheets in order,
keeping a row when its joined text has non-blank content, joined by
newline. -/
def sheetTextXlsx (sheets : List (List (List Cell))) : String :=
  String.intercalate "\n"
    ((sheets.flatMap id).filterMap (fun row =>
      let rt := rowTextXlsx row
      if pyStrip rt ≠ "" then some rt else none))

/-- Extracted text of an `.xls` workbook under the legacy cell filter. -/
def sheetTextXls (sheets : List (List (List Cell))) : String :=
  String.intercalate "\n"
    ((sheets.flatMap id).filterMap (fun row =>
      let rt := rowTextXls row
      if pyStrip rt ≠ "" then some rt else none))

/-- Outcome of one optional-library parse attempt: success, a raised
exception with message, or the library being unavailable (ImportError). -/
inductive PyResult (α : Type) where
  | ok (a : α)
  | err (msg : String)
  | noLib
deriving DecidableEq

/-- Whether a parse attempt succeeded. -/
def PyResult.isOk : PyResult α → Bool
  | .ok _ => true
  | _ => false

/-- The parse results a given file would produce for each format
attempt, which is all the Python function observes of the file: the raw
decoded text (`Except.error` = an OSError reaching the outer handler),
the per-page PDF texts, the DOCX paragraph texts, and the workbook cell
grids for the two spreadsheet formats. -/
structure FileContent where
  rawText : Except String String
  pdfPages : PyResult (List String)
  docxParas : PyResult (List String)
  xlsxSheets : PyResult (List (List (List Cell)))
  xlsSheets : PyResult (List (List (List Cell)))

/-- Model of `extract_text_from_file`: dispatch on the lower-cased
extension; every failure path returns a diagnostic string instead of
raising (the function is total). -/
def extract_text_from_file (path : String) (f : FileContent) : String :=
  let ext := pyLower (splitext path).2
  if ext = ".txt" then
    match f.rawText with
    | .ok t => t
    | .error e => "[Error extracting text: " ++ e ++ "]"
  else if ext = ".csv" then
    match f.rawText with
    | .ok t => t
    | .error e => "[Error extracting text: " ++ e ++ "]"
  else if ext = ".pdf" then
    match f.pdfPages with
    | .ok pages => String.intercalate "\n" pages
    | .err e => "[PDF extraction error: " ++ e ++ "]"
    | .noLib => "[PDF - Install PyPDF2: pip install PyPDF2]"
  else if ext = ".docx" then
    match f.docxParas with
    | .ok paras => String.intercalate "\n" paras
    | .err e => "[DOCX extraction error: " ++ e ++ "]"
    | .noLib => "[DOCX - Install python-docx: pip install python-docx]"
  else if ext = ".xlsx" then
    match f.xlsxSheets with
    | .ok sheets => sheetTextXlsx sheets
    | .err e => "[XLSX extraction error: " ++ e ++ "]"
    | .noLib => "[XLSX - Install openpyxl: pip install openpyxl]"
  else if ext = ".xls" then
    match f.xlsSheets with
    | .ok sheets => sheetTextXls sheets
    | .err e => "[XLS extraction error: " ++ e ++ "]"
    | .noLib => "[XLS - Install xlrd: pip install xlrd]"
  else ""

/-- The extensions the extractor attempts. -/
def supportedExts : List String := [".txt", ".csv", ".pdf", ".docx", ".xlsx", ".xls"]

/-- Whether the parse attempt relevant to the file's extension fails
(exception or missing library). -/
def extractionFails (path : String) (f : FileContent) : Bool :=
  let ext := pyLower (splitext path).2
  if ext = ".txt" then !f.rawText.toBool
  else if ext = ".csv" then !f.rawText.toBool
  else if ext = ".pdf" then !f.pdfPages.isOk
  else if ext = ".docx" then !f.docxParas.isOk
  else if ext = ".xlsx" then !f.xlsxSheets.isOk
  else if ext = ".xls" then !f.xlsSheets.isOk
  else false

/-! ### Indexing engine (`index_directory`) -/

/-- A directory tree: name, plain files (base names), subdirectories. -/
inductive FsTree where
  | node (name : String) (files : List String) (subdirs : List FsTree)

/-- Name of a directory node. -/
def FsTree.name : FsTree → String
  | .node nm _ _ => nm

/-- Parse of the comma-separated exclude-folder setting:
`[f.strip().lower() for f in s.split(',') if f.strip()]`. -/
def parseExclude (s : String) : List String :=
  (pySplitComma s).filterMap (fun f =>
    let fs := pyStrip f
    if fs ≠ "" then some (pyLower fs) else none)

mutual

/-- Model of the `os.walk` loop in `index_directory`: emit the
`(dirpath, filename)` pairs of the current directory, then recurse into
the subdirectories that survive the exclusion pruning
(`dirs[:] = [d for d in dirs if d.lower() not in exclude_folders]`).
A pruned subdirectory is not descended into at all. -/
def walkFiles (exclude : List String) (path : String) : FsTree → List (String × String)
  | .node _ files subdirs =>
    files.map (fun f => (path, f)) ++ walkList exclude path subdirs

/-- Walk the surviving subdirectories in order. -/
def walkList (exclude : List String) (path : String) : List FsTree → List (String × String)
  | [] => []
  | d :: ds =>
    (if pyLower d.name ∈ exclude then []
     else walkFiles exclude (path ++ "/" ++ d.name) d) ++ walkList exclude path ds

end

mutual

/-- The tree with every excluded subdirectory (at any depth below the
root) removed. -/
def pruneTree (exclude : List String) : FsTree → FsTree
  | .node nm files subdirs => .node nm files (pruneList exclude subdirs)

/-- Prune a list of subdirectories. -/
def pruneList (exclude : List String) : List FsTree → List FsTree
  | [] => []
  | d :: ds =>
    (if pyLower d.name ∈ exclude then [] else [pruneTree exclude d]) ++ pruneList exclude ds

end

/-- One row of the `files` table. -/
structure FileRecord where
  id : Nat
  filename : String
  filepath : String
  file_extension : String
  file_size : Nat
  content_text : String
  indexed_at : String
deriving DecidableEq

/-- The files the `os.walk` loop of `index_directory` enqueues for
indexing: walk files whose lower-cased extension is selected and — in
incremental mode — whose path is not already in the catalog (the
`existing_files` set is read once, before the walk). -/
def indexCandidates (db : List FileRecord) (tree : FsTree) (rootPath excludeStr : String)
    (extensions : List String) (incremental : Bool) : List (String × String) :=
  (walkFiles (parseExclude excludeStr) rootPath tree).filterMap (fun rf =>
    let ext := pyLower (splitext rf.2).2
    if ext ∈ extensions then
      if incremental then
        if pjoin rf.1 rf.2 ∈ db.map (fun r => r.filepath) then none else some rf
      else some rf
    else none)

/-- The rows inserted for the enqueued files, in walk order: filename,
path, lower-cased extension, size, content (when content indexing is
on), and the run's timestamp; ids continue the autoincrement counter. -/
def mkRows (nextId : Nat) (index_content : Bool) (getsize : String → Nat)
    (extractAt : String → String) (now : String) (l : List (String × String)) :
    List FileRecord :=
  l.enum.map (fun kf =>
    ({ id := nextId + kf.1
     , filename := kf.2.2
     , filepath := pjoin kf.2.1 kf.2.2
     , file_extension := pyLower (splitext kf.2.2).2
     , file_size := getsize (pjoin kf.2.1 kf.2.2)
     , content_text := if index_content then extractAt (pjoin kf.2.1 kf.2.2) else ""
     , indexed_at := now } : FileRecord))

/-- Model of `index_directory`. The catalog is the list of rows `db`
with the autoincrement counter `nextId`; the disk is the tree plus the
oracles `getsize` (os.path.getsize) and `extractAt`
(extract_text_from_file at a path, when content indexing is on); `now`
abstracts the per-record `datetime.now().isoformat()` stamps of one run.
A full run clears the table before scanning, so the early "No files
found" return still leaves the table cleared in that mode. Per-file OS
errors (a file vanishing mid-run) are outside the model. Returns the
catalog after the run, the next id, and `indexed_count`. -/
def index_directory (db : List FileRecord) (nextId : Nat) (tree : FsTree)
    (rootPath excludeStr : String) (extensions : List String)
    (index_content : Bool) (incremental : Bool)
    (getsize : String → Nat) (extractAt : String → String) (now : String) :
    List FileRecord × Nat × Nat :=
  let db0 := if incremental then db else []
  let all_files := indexCandidates db tree rootPath excludeStr extensions incremental
  if all_files.isEmpty then (db0, nextId, 0)
  else
    let newRows := mkRows nextId index_content getsize extractAt now all_files
    (db0 ++ newRows, nextId + newRows.length, newRows.length)

/-! ### Retrieval engine (`retrieve_documents`) -/

/-- The two query shapes built by `retrieve_documents`. -/
inductive SearchKind where
  | account
  | name
deriving DecidableEq

/-- The date-range conjunct appended to the SQL query when either bound
is set: `indexed_at >= ? AND indexed_at <= ?` with sentinels
`1900-01-01` / `2100-12-31` for an unset bound. -/
def dateOk (date_from date_to : String) (r : FileRecord) : Bool :=
  if date_from ≠ "" ∨ date_to ≠ "" then
    sqliteTextLe (if date_from ≠ "" then date_from else "1900-01-01") r.indexed_at &&
    sqliteTextLe r.indexed_at (if date_to ≠ "" then date_to else "2100-12-31")
  else true

/-- The WHERE clause of the per-term query: account terms match
`filename LIKE '%t%' OR content_text LIKE '%t%'`, name terms match
`content_text LIKE '%t%'`; the date conjunct applies when a bound is set. -/
def matchesQuery (kind : SearchKind) (term : String) (date_from date_to : String)
    (r : FileRecord) : Bool :=
  (match kind with
   | .account => likeContains r.filename term || likeContains r.content_text term
   | .name => likeContains r.content_text term)
  && dateOk date_from date_to r

/-- The rows a term retrieves: the SQL query over the catalog followed
by the in-Python extension filter
(`[r for r in results if r['file_extension'] in allowed_extensions]`). -/
def filteredResults (db : List FileRecord) (kind : SearchKind) (term : String)
    (date_from date_to : String) (allowed : List String) : List FileRecord :=
  (db.filter (fun r => matchesQuery kind term date_from date_to r)).filter
    (fun r => r.file_extension ∈ allowed)

/-- Lookup in the `file_hashes` dict (md5 digest → first-seen filename). -/
def hashLookup : List (List Nat × String) → List Nat → Option String
  | [], _ => none
  | p :: ps, b => if p.1 = b then some p.2 else hashLookup ps b

/-- Candidate output name built by the f-string: base, underscore,
decimal counter, extension. -/
def mkCand (base ext : String) (k : Nat) : String :=
  base ++ "_" ++ natRepr k ++ ext

/-- The collision loop: while the candidate name exists, bump the
counter and try the next suffixed name; written with explicit fuel (the loop provably stops within `existing.length + 1`
steps, see `findFree_spec`). -/
def findFree (existing : List String) (base ext : String) : Nat → Nat → String
  | _, 0 => ""
  | counter, fuel + 1 =>
    let cand := mkCand base ext counter
    if cand ∈ existing then findFree existing base ext (counter + 1) fuel else cand

/-- Destination-name resolution of `retrieve_documents`: keep the name
if it is free in the output directory, otherwise append `_1`, `_2`, …
before the extension until a free name is found. `existing` is the list
of names already created in the fresh `retrieval_<timestamp>` directory. -/
def resolveDest (existing : List String) (filename : String) : String :=
  if filename ∈ existing then
    let be := splitext filename
    findFree existing be.1 be.2 1 (existing.length + 1)
  else filename

/-- One row of `found_files.csv`. -/
structure FoundRow where
  search_term : String
  search_type : SearchKind
  filename : String
  filepath : String
  file_extension : String
  file_size : Nat
  output_filename : String
  is_duplicate : Bool
deriving DecidableEq

/-- One row of `duplicates_detected.csv`. -/
structure DupRow where
  original : String
  duplicate : String
  search_term : String
deriving DecidableEq

/-- The mutable state threaded through the retrieval loop. `outNames`
is the set of file names created so far in the output directory (the
bundle starts empty); the manifest text lines are not modelled. -/
structure RetState where
  file_hashes : List (List Nat × String)
  found : List FoundRow
  dups : List DupRow
  outNames : List String
  total_found : Nat
  missing : List (String × SearchKind)
deriving DecidableEq

/-- The empty state at the start of a run. -/
def initState : RetState :=
  { file_hashes := [], found := [], dups := [], outNames := [], total_found := 0, missing := [] }

/-- Body of `for file in filtered_results`. `fs` maps a source path to
its on-disk bytes, `none` meaning the file cannot be read: then the md5
attempt fails (`except: pass`), and the subsequent `shutil.copy2` of the
same unreadable source raises, which the per-row handler turns into a
manifest ERROR line — so the state is unchanged. For a readable file the
md5 digest is modelled by the byte content itself (a collision-free
digest); the row is hashed, checked against `file_hashes`, renamed,
collision-resolved, copied, and recorded in `found_files_data`. -/
def processRow (fs : String → Option (List Nat)) (pfx : Bool)
    (kind : SearchKind) (term : String) (st : RetState) (file : FileRecord) : RetState :=
  match fs file.filepath with
  | none => st
  | some b =>
    let looked := hashLookup st.file_hashes b
    let is_dup := looked.isSome
    let hashes :=
      match looked with
      | some _ => st.file_hashes
      | none => st.file_hashes ++ [(b, file.filename)]
    let dups :=
      match looked with
      | some orig => st.dups ++ [{ original := orig, duplicate := file.filename, search_term := term }]
      | none => st.dups
    let fname :=
      if pfx then
        let be := splitext file.filename
        term ++ "_" ++ be.1 ++ be.2
      else file.filename
    let dest := resolveDest st.outNames fname
    { file_hashes := hashes
    , found := st.found ++
        [{ search_term := term, search_type := kind, filename := file.filename
         , filepath := file.filepath, file_extension := file.file_extension
         , file_size := file.file_size, output_filename := dest, is_duplicate := is_dup }]
    , dups := dups
    , outNames := st.outNames ++ [dest]
    , total_found := st.total_found
    , missing := st.missing }

/-- Body of `for search_type, term in search_terms`: query, extension
filter, then either record a missing outcome or bump `total_found` and
process every matching row. -/
def processTerm (db : List FileRecord) (fs : String → Option (List Nat))
    (date_from date_to : String) (allowed : List String) (pfx : Bool)
    (st : RetState) (kt : SearchKind × String) : RetState :=
  let rows := filteredResults db kt.1 kt.2 date_from date_to allowed
  if rows.isEmpty then
    { st with missing := st.missing ++ [(kt.2, kt.1)] }
  else
    rows.foldl (processRow fs pfx kt.1 kt.2)
      { st with total_found := st.total_found + rows.length }

/-- Model of the search-and-retrieve loop of `retrieve_documents` over
one run's search terms. -/
def runRetrieval (db : List FileRecord) (fs : String → Option (List Nat))
    (terms : List (SearchKind × String)) (date_from date_to : String)
    (allowed : List String) (pfx : Bool) : RetState :=
  terms.foldl (processTerm db fs date_from date_to allowed pfx) initState

/-- Model of the CSV-ingestion loop of `retrieve_documents`:
`next(reader, None)` skips the first row, then every non-empty row
contributes `('account', row[0].strip())`. -/
def readCsvSearchTerms (rows : List (List String)) : List (SearchKind × String) :=
  match rows with
  | [] => []
  | _ :: rest =>
    rest.foldl (fun acc row =>
      if row.isEmpty then acc
      else acc ++ [(SearchKind.account, pyStrip (row.headD ""))]) []

/-! ### Specification-side definitions

These definitions follow the spec's words (duplicate flags determined by
earlier occurrences of the same byte content) and are compared with the
operational model in the refinement theorems. -/

/-- One matched row of a run: the kind and value of the term that
matched it, and the catalog record. -/
abbrev Row := SearchKind × String × FileRecord

/-- The rows one term contributes, tagged with the term. -/
def termRows (db : List FileRecord) (date_from date_to : String)
    (allowed : List String) (kt : SearchKind × String) : List Row :=
  (filteredResults db kt.1 kt.2 date_from date_to allowed).map (fun r => (kt.1, kt.2, r))

/-- All matched rows of a run, across the search terms in order. -/
def matchedRows (db : List FileRecord) (date_from date_to : String)
    (allowed : List String) (terms : List (SearchKind × String)) : List Row :=
  terms.flatMap (termRows db date_from date_to allowed)

/-- On-disk bytes of a row's source file (`none` = unreadable). -/
def rowBytes (fs : String → Option (List Nat)) (row : Row) : Option (List Nat) :=
  fs row.2.2.filepath

/-- Filename of the first row of `P` whose readable content is `b`. -/
def firstWithOpt (fs : String → Option (List Nat)) (P : List Row) (b : List Nat) :
    Option String :=
  (P.find? (fun p => decide (rowBytes fs p = some b))).map (fun p => p.2.2.filename)

/-- Spec of the `found_files.csv` rows, projected to
(search kind, search term, source filename, duplicate flag): one entry
per readable matched row, in processing order, flagged duplicate exactly
when some earlier readable row (`prev`, the rows processed before it)
has identical byte content. -/
def foundProjSpec (fs : String → Option (List Nat)) (prev : List Row) :
    List Row → List (SearchKind × String × String × Bool)
  | [] => []
  | row :: rest =>
    (match rowBytes fs row with
     | none => []
     | some b => [(row.1, row.2.1, row.2.2.filename,
                   prev.any (fun p => decide (rowBytes fs p = some b)))]) ++
    foundProjSpec fs (prev ++ [row]) rest

/-- Spec of the `duplicates_detected.csv` rows: one entry per readable
matched row whose content already occurred among the rows processed
before it, naming the filename of the first occurrence. -/
def dupsSpec (fs : String → Option (List Nat)) (prev : List Row) :
    List Row → List DupRow
  | [] => []
  | row :: rest =>
    (match rowBytes fs row with
     | none => []
     | some b =>
       match firstWithOpt fs prev b with
       | some orig => [{ original := orig, duplicate := row.2.2.filename, search_term := row.2.1 }]
       | none => []) ++
    dupsSpec fs (prev ++ [row]) rest

/-- The claim-relevant projection of a found row. -/
def foundProj (e : FoundRow) : SearchKind × String × String × Bool :=
  (e.search_type, e.search_term, e.filename, e.is_duplicate)

/-- Spec of the `missing_media.csv` rows: the terms whose query matched
zero rows, in order. -/
def missingSpec (db : List FileRecord) (date_from date_to : String)
    (allowed : List String) (terms : List (SearchKind × String)) :
    List (String × SearchKind) :=
  terms.filterMap (fun kt =>
    if (filteredResults db kt.1 kt.2 date_from date_to allowed).isEmpty
    then some (kt.2, kt.1) else none)

/-! ### Helper lemmas: strings and decimal rendering -/

/-- Strings with equal character data are equal. -/
theorem stringDataInj {s t : String} (h : s.data = t.data) : s = t := by
  cases s; cases t; exact congrArg String.mk h

/-- Data of an appended string. -/
theorem stringDataAppend (a b : String) : (a ++ b).data = a.data ++ b.data := by
  cases a; cases b; rfl

/-- A nonempty string has nonempty data. -/
theorem stringDataNeNil {s : String} (h : s ≠ "") : s.data ≠ [] := by
  intro hd
  exact h (stringDataInj (by simpa using hd))

/-- A list compares `<=` to itself extended on the right. -/
theorem charListLe_self_append (l m : List Char) : charListLe l (l ++ m) = true := by
  induction l with
  | nil => rfl
  | cons a as ih => simp [charListLe, ih]

/-- A proper right extension of a list never compares `<=` to the list. -/
theorem charListLe_append_self (l m : List Char) (hm : m ≠ []) :
    charListLe (l ++ m) l = false := by
  induction l with
  | nil =>
    cases m with
    | nil => exact absurd rfl hm
    | cons b bs => rfl
  | cons a as ih => simp [charListLe, ih]

/-- The digit list of `n` evaluates back to `n`. -/
theorem valLE_natDigitsLE (n : Nat) : valLE (natDigitsLE n) = n := by
  induction n using Nat.strong_induction_on with
  | _ n ih =>
    by_cases h : n = 0
    · subst h; simp [natDigitsLE, valLE]
    · rw [natDigitsLE]
      simp only [h, dite_false]
      rw [valLE, ih (n / 10) (Nat.div_lt_self (Nat.pos_of_ne_zero h) (by omega))]
      exact Nat.mod_add_div n 10

/-- Digits produced by `natDigitsLE` are decimal digits. -/
theorem natDigitsLE_lt_ten (n : Nat) : ∀ d ∈ natDigitsLE n, d < 10 := by
  induction n using Nat.strong_induction_on with
  | _ n ih =>
    by_cases h : n = 0
    · subst h; simp [natDigitsLE]
    · rw [natDigitsLE]
      simp only [h, dite_false]
      intro d hd
      rcases List.mem_cons.mp hd with h1 | h2
      · subst h1; omega
      · exact ih (n / 10) (Nat.div_lt_self (Nat.pos_of_ne_zero h) (by omega)) d h2

/-- `digitChar` is injective on decimal digits. -/
theorem digitChar_inj : ∀ a b : Nat, a < 10 → b < 10 → digitChar a = digitChar b → a = b := by
  intro a b ha hb
  interval_cases a <;> interval_cases b <;> revert ha <;> decide

/-- Mapping `digitChar` over digit lists is injective. -/
theorem map_digitChar_inj : ∀ l₁ l₂ : List Nat, (∀ d ∈ l₁, d < 10) → (∀ d ∈ l₂, d < 10) →
    l₁.map digitChar = l₂.map digitChar → l₁ = l₂ := by
  intro l₁
  induction l₁ with
  | nil => intro l₂ _ _ h; cases l₂ with
    | nil => rfl
    | cons b bs => simp at h
  | cons a as ih =>
    intro l₂ h1 h2 h
    cases l₂ with
    | nil => simp at h
    | cons b bs =>
      simp only [List.map_cons, List.cons.injEq] at h
      have hab : a = b :=
        digitChar_inj a b (h1 a (by simp)) (h2 b (by simp)) h.1
      have : as = bs :=
        ih bs (fun d hd => h1 d (by simp [hd])) (fun d hd => h2 d (by simp [hd])) h.2
      rw [hab, this]

/-- The decimal rendering is injective. -/
theorem natRepr_inj : ∀ m n : Nat, natRepr m = natRepr n → m = n := by
  have key : ∀ k : Nat, k ≠ 0 →
      ¬ ("0" = (⟨((natDigitsLE k).map digitChar).reverse⟩ : String)) := by
    intro k hk h
    have hd : ['0'] = ((natDigitsLE k).map digitChar).reverse := congrArg String.data h
    have hmap : (natDigitsLE k).map digitChar = ['0'] := by
      have := congrArg List.reverse hd
      simpa using this.symm
    have : natDigitsLE k = [0] := by
      cases hdig : natDigitsLE k with
      | nil => rw [hdig] at hmap; simp at hmap
      | cons d ds =>
        rw [hdig] at hmap
        simp only [List.map_cons, List.cons.injEq] at hmap
        have hds : ds = [] := by
          have := hmap.2
          cases ds with
          | nil => rfl
          | cons x xs => simp at this
        have hdlt : d < 10 := natDigitsLE_lt_ten k d (by rw [hdig]; simp)
        have : d = 0 := digitChar_inj d 0 hdlt (by omega) (by rw [hmap.1]; rfl)
        rw [hds, this]
    exact hk (by
      have hv := valLE_natDigitsLE k
      rw [‹natDigitsLE k = [0]›] at hv
      simpa [valLE] using hv.symm)
  intro m n h
  by_cases hm : m = 0 <;> by_cases hn : n = 0
  · omega
  · subst hm; rw [natRepr, natRepr] at h; simp only [if_pos rfl, hn, if_neg hn] at h
    exact absurd h (key n hn)
  · subst hn; rw [natRepr, natRepr] at h; simp only [hm, if_neg hm, if_pos rfl] at h
    exact absurd h.symm (key m hm)
  · rw [natRepr, natRepr] at h
    simp only [hm, hn, if_neg hm, if_neg hn] at h
    have hd := congrArg String.data h
    have hrev : (natDigitsLE m).map digitChar = (natDigitsLE n).map digitChar := by
      have := congrArg List.reverse hd
      simpa using this
    have := map_digitChar_inj _ _ (natDigitsLE_lt_ten m) (natDigitsLE_lt_ten n) hrev
    have hv := valLE_natDigitsLE m
    rw [this, valLE_natDigitsLE n] at hv
    omega

/-- Candidate names are injective in the counter. -/
theorem mkCand_inj (base ext : String) : ∀ k m : Nat,
    mkCand base ext k = mkCand base ext m → k = m := by
  intro k m h
  have hd := congrArg String.data h
  rw [mkCand, mkCand] at hd
  rw [stringDataAppend, stringDataAppend, stringDataAppend, stringDataAppend] at hd
  have h1 := List.append_cancel_right hd
  have h2 := List.append_cancel_left h1
  exact natRepr_inj k m (stringDataInj h2)

/-! ### The collision loop stops at a free name -/

/-- Some candidate index within `existing.length + 1` tries is free. -/
theorem exists_free (existing : List String) (base ext : String) :
    ∃ i, i < existing.length + 1 ∧ mkCand base ext (1 + i) ∉ existing := by
  by_contra h
  push_neg at h
  have hsub : ((List.range (existing.length + 1)).map (fun i => mkCand base ext (1 + i)))
      ⊆ existing := by
    intro x hx
    obtain ⟨i, hi, rfl⟩ := List.mem_map.mp hx
    exact h i (List.mem_range.mp hi)
  have hinj : Function.Injective (fun i => mkCand base ext (1 + i)) := by
    intro a b hab
    have := mkCand_inj base ext (1 + a) (1 + b) hab
    omega
  have hnd : ((List.range (existing.length + 1)).map (fun i => mkCand base ext (1 + i))).Nodup :=
    (List.nodup_range _).map hinj
  have hle := (hnd.subperm hsub).length_le
  simp only [List.length_map, List.length_range] at hle
  omega

/-- If some candidate within the fuel is free, the loop returns a name
that is not in `existing`, and it is the candidate of the first free
index: every smaller candidate was occupied. -/
theorem findFree_spec (existing : List String) (base ext : String) : ∀ (fuel counter : Nat),
    (∃ i, i < fuel ∧ mkCand base ext (counter + i) ∉ existing) →
    findFree existing base ext counter fuel ∉ existing ∧
    ∃ j, j < fuel ∧ findFree existing base ext counter fuel = mkCand base ext (counter + j) ∧
      ∀ i, i < j → mkCand base ext (counter + i) ∈ existing := by
  intro fuel
  induction fuel with
  | zero =>
    rintro counter ⟨i, hi, _⟩
    omega
  | succ f ih =>
    rintro counter ⟨i, hi, hfree⟩
    by_cases hc : mkCand base ext counter ∈ existing
    · have hi0 : i ≠ 0 := by
        rintro rfl
        exact hfree (by simpa using hc)
      have hrec := ih (counter + 1)
        ⟨i - 1, by omega, by
          have harith : counter + 1 + (i - 1) = counter + i := by omega
          rw [harith]; exact hfree⟩
      rw [findFree]
      simp only [hc, if_pos, if_true]
      obtain ⟨h1, j, hj, heq, hall⟩ := hrec
      refine ⟨h1, j + 1, by omega, ?_, ?_⟩
      · rw [heq]
        have : counter + 1 + j = counter + (j + 1) := by omega
        rw [this]
      · intro k hk
        cases k with
        | zero => simpa using hc
        | succ k2 =>
          have : counter + (k2 + 1) = counter + 1 + k2 := by omega
          rw [this]
          exact hall k2 (by omega)
    · simp only [findFree]
      rw [if_neg hc]
      exact ⟨hc, 0, by omega, by simp, fun k hk => by omega⟩

/-- The resolved destination name is always free in the output
directory. -/
theorem resolveDest_not_mem (existing : List String) (filename : String) :
    resolveDest existing filename ∉ existing := by
  rw [resolveDest]
  by_cases h : filename ∈ existing
  · simp only [h, if_pos, if_true]
    obtain ⟨i, hi, hfree⟩ := exists_free existing (splitext filename).1 (splitext filename).2
    exact (findFree_spec existing (splitext filename).1 (splitext filename).2
      (existing.length + 1) 1 ⟨i, hi, hfree⟩).1
  · simp [h]

/-- Characterization of a resolved collision: the result is the first
free suffixed candidate. -/
theorem resolveDest_collision (existing : List String) (filename : String)
    (h : filename ∈ existing) :
    ∃ k, 1 ≤ k ∧
      resolveDest existing filename = mkCand (splitext filename).1 (splitext filename).2 k ∧
      ∀ m, 1 ≤ m → m < k → mkCand (splitext filename).1 (splitext filename).2 m ∈ existing := by
  rw [resolveDest]
  simp only [h, if_pos, if_true]
  obtain ⟨i, hi, hfree⟩ := exists_free existing (splitext filename).1 (splitext filename).2
  obtain ⟨_, j, hj, heq, hall⟩ := findFree_spec existing (splitext filename).1
    (splitext filename).2 (existing.length + 1) 1 ⟨i, hi, hfree⟩
  refine ⟨1 + j, by omega, heq, ?_⟩
  intro m h1 hm
  have : m = 1 + (m - 1) := by omega
  rw [this]
  exact hall (m - 1) (by omega)

/-! ### Flattening the two nested retrieval loops

`processRow` reads and writes only the hash map, the found rows, the
duplicate rows and the output-directory names. Projecting the state to
that core turns the nested term/row loops into one fold over all
matched rows. -/

/-- The components of the retrieval state the row loop acts on. -/
structure Core where
  file_hashes : List (List Nat × String)
  found : List FoundRow
  dups : List DupRow
  outNames : List String
deriving DecidableEq

/-- Projection of the loop state to its core. -/
def coreOf (st : RetState) : Core :=
  { file_hashes := st.file_hashes, found := st.found, dups := st.dups, outNames := st.outNames }

/-- The action of `processRow` on the core (proved to agree with
`processRow` in `coreOf_processRow`). -/
def coreStep (fs : String → Option (List Nat)) (pfx : Bool) (c : Core) (row : Row) : Core :=
  match fs row.2.2.filepath with
  | none => c
  | some b =>
    let looked := hashLookup c.file_hashes b
    let hashes :=
      match looked with
      | some _ => c.file_hashes
      | none => c.file_hashes ++ [(b, row.2.2.filename)]
    let dups :=
      match looked with
      | some orig => c.dups ++
          [{ original := orig, duplicate := row.2.2.filename, search_term := row.2.1 }]
      | none => c.dups
    let fname :=
      if pfx then
        let be := splitext row.2.2.filename
        row.2.1 ++ "_" ++ be.1 ++ be.2
      else row.2.2.filename
    let dest := resolveDest c.outNames fname
    { file_hashes := hashes
    , found := c.found ++
        [{ search_term := row.2.1, search_type := row.1, filename := row.2.2.filename
         , filepath := row.2.2.filepath, file_extension := row.2.2.file_extension
         , file_size := row.2.2.file_size, output_filename := dest
         , is_duplicate := looked.isSome }]
    , dups := dups
    , outNames := c.outNames ++ [dest] }

/-- The row-processing step, uncurried over a tagged row. -/
def rowStep (fs : String → Option (List Nat)) (pfx : Bool) (st : RetState) (row : Row) :
    RetState :=
  processRow fs pfx row.1 row.2.1 st row.2.2

/-- One row step projects to one core step. -/
theorem coreOf_processRow (fs : String → Option (List Nat)) (pfx : Bool) (st : RetState)
    (row : Row) : coreOf (rowStep fs pfx st row) = coreStep fs pfx (coreOf st) row := by
  cases h : fs row.2.2.filepath <;>
    simp [rowStep, processRow, coreStep, coreOf, h]

/-- A row step never touches `total_found` or `missing`. -/
theorem rowStep_keeps (fs : String → Option (List Nat)) (pfx : Bool) (st : RetState)
    (row : Row) :
    (rowStep fs pfx st row).total_found = st.total_found ∧
    (rowStep fs pfx st row).missing = st.missing := by
  cases h : fs row.2.2.filepath <;> simp [rowStep, processRow, h]

/-- Fold form of `coreOf_processRow`. -/
theorem coreOf_foldRows (fs : String → Option (List Nat)) (pfx : Bool) :
    ∀ (rows : List Row) (st : RetState),
    coreOf (rows.foldl (rowStep fs pfx) st) = rows.foldl (coreStep fs pfx) (coreOf st) := by
  intro rows
  induction rows with
  | nil => intro st; rfl
  | cons r rest ih =>
    intro st
    simp only [List.foldl_cons]
    rw [ih, coreOf_processRow]

/-- Fold form of `rowStep_keeps`. -/
theorem foldRows_keeps (fs : String → Option (List Nat)) (pfx : Bool) :
    ∀ (rows : List Row) (st : RetState),
    (rows.foldl (rowStep fs pfx) st).total_found = st.total_found ∧
    (rows.foldl (rowStep fs pfx) st).missing = st.missing := by
  intro rows
  induction rows with
  | nil => intro st; exact ⟨rfl, rfl⟩
  | cons r rest ih =>
    intro st
    simp only [List.foldl_cons]
    obtain ⟨h1, h2⟩ := ih (rowStep fs pfx st r)
    obtain ⟨k1, k2⟩ := rowStep_keeps fs pfx st r
    exact ⟨h1.trans k1, h2.trans k2⟩

/-- The nested term/row loops, flattened: the core of a full run is the
core fold over all matched rows; `total_found` sums the per-term match
counts; `missing` lists the zero-match terms. -/
theorem run_components (db : List FileRecord) (fs : String → Option (List Nat))
    (date_from date_to : String) (allowed : List String) (pfx : Bool) :
    ∀ (terms : List (SearchKind × String)) (st : RetState),
    coreOf (terms.foldl (processTerm db fs date_from date_to allowed pfx) st) =
      (matchedRows db date_from date_to allowed terms).foldl (coreStep fs pfx) (coreOf st) ∧
    (terms.foldl (processTerm db fs date_from date_to allowed pfx) st).total_found =
      st.total_found + (terms.map (fun kt =>
        (filteredResults db kt.1 kt.2 date_from date_to allowed).length)).sum ∧
    (terms.foldl (processTerm db fs date_from date_to allowed pfx) st).missing =
      st.missing ++ missingSpec db date_from date_to allowed terms := by
  intro terms
  induction terms with
  | nil =>
    intro st
    refine ⟨rfl, by simp, by simp [missingSpec]⟩
  | cons kt ts ih =>
    intro st
    simp only [List.foldl_cons]
    by_cases hrows : (filteredResults db kt.1 kt.2 date_from date_to allowed).isEmpty
    · have hemp : filteredResults db kt.1 kt.2 date_from date_to allowed = [] :=
        List.isEmpty_iff.mp hrows
      have hstep : processTerm db fs date_from date_to allowed pfx st kt =
          { st with missing := st.missing ++ [(kt.2, kt.1)] } := by
        rw [processTerm]
        simp [hrows]
      obtain ⟨c1, c2, c3⟩ := ih { st with missing := st.missing ++ [(kt.2, kt.1)] }
      rw [hstep]
      refine ⟨?_, ?_, ?_⟩
      · rw [c1]
        have : coreOf { st with missing := st.missing ++ [(kt.2, kt.1)] } = coreOf st := rfl
        rw [this]
        simp [matchedRows, termRows, hemp]
      · rw [c2]
        simp [hemp]
      · rw [c3]
        simp [missingSpec, hemp]
    · have hne : filteredResults db kt.1 kt.2 date_from date_to allowed ≠ [] := by
        intro hq
        rw [hq] at hrows
        simp at hrows
      have hstep : processTerm db fs date_from date_to allowed pfx st kt =
          (filteredResults db kt.1 kt.2 date_from date_to allowed).foldl
            (processRow fs pfx kt.1 kt.2)
            { st with total_found := st.total_found +
                (filteredResults db kt.1 kt.2 date_from date_to allowed).length } := by
        rw [processTerm]
        simp [hrows]
      have hfold : ∀ (z : RetState),
          (filteredResults db kt.1 kt.2 date_from date_to allowed).foldl
            (processRow fs pfx kt.1 kt.2) z =
          (termRows db date_from date_to allowed kt).foldl (rowStep fs pfx) z := by
        intro z
        rw [termRows, List.foldl_map]
        rfl
      rw [hstep, hfold]
      set z : RetState := { st with total_found := st.total_found +
          (filteredResults db kt.1 kt.2 date_from date_to allowed).length } with hz
      set A : RetState :=
        (termRows db date_from date_to allowed kt).foldl (rowStep fs pfx) z with hA
      obtain ⟨c1, c2, c3⟩ := ih A
      obtain ⟨k1, k2⟩ := foldRows_keeps fs pfx (termRows db date_from date_to allowed kt) z
      refine ⟨?_, ?_, ?_⟩
      · rw [c1]
        have hcA : coreOf A = (termRows db date_from date_to allowed kt).foldl
            (coreStep fs pfx) (coreOf st) := by
          rw [hA, coreOf_foldRows]
          rfl
        rw [hcA]
        have hmr : matchedRows db date_from date_to allowed (kt :: ts) =
            termRows db date_from date_to allowed kt ++
            matchedRows db date_from date_to allowed ts := by
          simp [matchedRows]
        rw [hmr, List.foldl_append]
      · rw [c2, k1]
        simp [hz, Nat.add_assoc]
      · rw [c3, k2]
        have hms : missingSpec db date_from date_to allowed (kt :: ts) =
            missingSpec db date_from date_to allowed ts := by
          simp [missingSpec, hne]
        rw [hms]

/-! ### The hash map tracks first occurrences -/

/-- Extending the processed prefix by one row shifts `firstWithOpt` by
at most that row. -/
theorem firstWithOpt_snoc (fs : String → Option (List Nat)) (P : List Row) (row : Row)
    (b : List Nat) :
    firstWithOpt fs (P ++ [row]) b =
      (firstWithOpt fs P b).or
        (if rowBytes fs row = some b then some row.2.2.filename else none) := by
  rw [firstWithOpt, firstWithOpt, List.find?_append, Option.map_or']
  by_cases hb : rowBytes fs row = some b
  · simp [List.find?, hb]
  · simp [List.find?, hb]

/-- The first-occurrence lookup is `some` exactly when some row of the
prefix has the given content. -/
theorem any_eq_isSome_firstWithOpt (fs : String → Option (List Nat)) (P : List Row)
    (b : List Nat) :
    P.any (fun p => decide (rowBytes fs p = some b)) = (firstWithOpt fs P b).isSome := by
  rw [Bool.eq_iff_iff]
  simp [firstWithOpt, List.any_eq_true, List.find?_isSome]

/-- Appending a fresh key to the hash map extends the lookup. -/
theorem hashLookup_snoc (b0 : List Nat) (fn : String) :
    ∀ (h : List (List Nat × String)) (b : List Nat),
    hashLookup (h ++ [(b0, fn)]) b =
      (hashLookup h b).or (if b0 = b then some fn else none) := by
  intro h
  induction h with
  | nil =>
    intro b
    by_cases hb : b0 = b <;> simp [hashLookup, hb]
  | cons p ps ih =>
    intro b
    by_cases hp : p.1 = b <;> simp [hashLookup, hp, ih]

/-- Invariant fold lemma: if the hash map of the state holds exactly the
first filename of each content seen in the processed prefix `P`, then
folding the remaining rows appends exactly the spec's found projections
and duplicate records, and re-establishes the invariant for `P ++ rest`. -/
theorem foldCore_spec (fs : String → Option (List Nat)) (pfx : Bool) :
    ∀ (rest : List Row) (c : Core) (P : List Row),
    (∀ b, hashLookup c.file_hashes b = firstWithOpt fs P b) →
    ((rest.foldl (coreStep fs pfx) c).found.map foundProj =
      c.found.map foundProj ++ foundProjSpec fs P rest) ∧
    ((rest.foldl (coreStep fs pfx) c).dups = c.dups ++ dupsSpec fs P rest) ∧
    (∀ b, hashLookup (rest.foldl (coreStep fs pfx) c).file_hashes b =
      firstWithOpt fs (P ++ rest) b) := by
  intro rest
  induction rest with
  | nil =>
    intro c P hinv
    refine ⟨by simp [foundProjSpec], by simp [dupsSpec], ?_⟩
    intro b
    simpa using hinv b
  | cons row rest ih =>
    intro c P hinv
    simp only [List.foldl_cons]
    cases hb : fs row.2.2.filepath with
    | none =>
      have hstep : coreStep fs pfx c row = c := by
        rw [coreStep, hb]
      have hrb : rowBytes fs row = none := hb
      have hinv2 : ∀ b, hashLookup c.file_hashes b = firstWithOpt fs (P ++ [row]) b := by
        intro b
        rw [firstWithOpt_snoc, hrb]
        simp [hinv b]
      obtain ⟨g1, g2, g3⟩ := ih c (P ++ [row]) hinv2
      rw [hstep]
      refine ⟨?_, ?_, ?_⟩
      · rw [g1, foundProjSpec, hrb]
        simp
      · rw [g2, dupsSpec, hrb]
        simp
      · intro b
        have := g3 b
        simpa [List.append_assoc] using this
    | some bts =>
      have hrb : rowBytes fs row = some bts := hb
      cases hl : hashLookup c.file_hashes bts with
      | some orig =>
        have hfirst : firstWithOpt fs P bts = some orig := (hinv bts).symm.trans hl
        have hstep : coreStep fs pfx c row =
            { file_hashes := c.file_hashes
            , found := c.found ++
                [{ search_term := row.2.1, search_type := row.1, filename := row.2.2.filename
                 , filepath := row.2.2.filepath, file_extension := row.2.2.file_extension
                 , file_size := row.2.2.file_size
                 , output_filename := resolveDest c.outNames
                     (if pfx then row.2.1 ++ "_" ++ (splitext row.2.2.filename).1 ++
                        (splitext row.2.2.filename).2 else row.2.2.filename)
                 , is_duplicate := true }]
            , dups := c.dups ++
                [{ original := orig, duplicate := row.2.2.filename, search_term := row.2.1 }]
            , outNames := c.outNames ++ [resolveDest c.outNames
                (if pfx then row.2.1 ++ "_" ++ (splitext row.2.2.filename).1 ++
                   (splitext row.2.2.filename).2 else row.2.2.filename)] } := by
          rw [coreStep, hb]
          simp only [hl]
          by_cases hp : pfx <;> simp [hp]
        have hinv2 : ∀ b, hashLookup c.file_hashes b = firstWithOpt fs (P ++ [row]) b := by
          intro b
          rw [firstWithOpt_snoc, hrb]
          by_cases hbb : bts = b
          · subst hbb
            rw [hinv bts, hfirst]
            simp
          · have : (if (some bts : Option (List Nat)) = some b then
                some row.2.2.filename else none) = none := by
              simp [hbb]
            rw [this, Option.or_none, hinv b]
        obtain ⟨g1, g2, g3⟩ := ih (coreStep fs pfx c row) (P ++ [row]) (by
          intro b
          rw [hstep]
          exact hinv2 b)
        refine ⟨?_, ?_, ?_⟩
        · rw [g1, hstep]
          rw [foundProjSpec, hrb]
          have hflag : P.any (fun p => decide (rowBytes fs p = some bts)) = true := by
            rw [any_eq_isSome_firstWithOpt, hfirst]
            rfl
          simp [foundProj, hflag]
        · rw [g2, hstep]
          simp [dupsSpec, hrb, hfirst]
        · intro b
          have := g3 b
          simpa [List.append_assoc] using this
      | none =>
        have hfirst : firstWithOpt fs P bts = none := (hinv bts).symm.trans hl
        have hstep : coreStep fs pfx c row =
            { file_hashes := c.file_hashes ++ [(bts, row.2.2.filename)]
            , found := c.found ++
                [{ search_term := row.2.1, search_type := row.1, filename := row.2.2.filename
                 , filepath := row.2.2.filepath, file_extension := row.2.2.file_extension
                 , file_size := row.2.2.file_size
                 , output_filename := resolveDest c.outNames
                     (if pfx then row.2.1 ++ "_" ++ (splitext row.2.2.filename).1 ++
                        (splitext row.2.2.filename).2 else row.2.2.filename)
                 , is_duplicate := false }]
            , dups := c.dups
            , outNames := c.outNames ++ [resolveDest c.outNames
                (if pfx then row.2.1 ++ "_" ++ (splitext row.2.2.filename).1 ++
                   (splitext row.2.2.filename).2 else row.2.2.filename)] } := by
          rw [coreStep, hb]
          simp only [hl]
          by_cases hp : pfx <;> simp [hp]
        have hinv2 : ∀ b, hashLookup (c.file_hashes ++ [(bts, row.2.2.filename)]) b =
            firstWithOpt fs (P ++ [row]) b := by
          intro b
          rw [hashLookup_snoc, firstWithOpt_snoc, hrb, hinv b]
          by_cases hbb : bts = b
          · subst hbb
            simp
          · simp [hbb]
        obtain ⟨g1, g2, g3⟩ := ih (coreStep fs pfx c row) (P ++ [row]) (by
          intro b
          rw [hstep]
          exact hinv2 b)
        refine ⟨?_, ?_, ?_⟩
        · rw [g1, hstep]
          rw [foundProjSpec, hrb]
          have hflag : P.any (fun p => decide (rowBytes fs p = some bts)) = false := by
            rw [any_eq_isSome_firstWithOpt, hfirst]
            rfl
          simp [foundProj, hflag]
        · rw [g2, hstep]
          simp [dupsSpec, hrb, hfirst]
        · intro b
          have := g3 b
          simpa [List.append_assoc] using this

/-! ### Output names stay distinct -/

/-- One core step preserves "the recorded output filenames are exactly
the names on disk, and those are distinct". -/
theorem coreStep_out (fs : String → Option (List Nat)) (pfx : Bool) (c : Core) (row : Row)
    (h1 : c.found.map (fun e => e.output_filename) = c.outNames) (h2 : c.outNames.Nodup) :
    (coreStep fs pfx c row).found.map (fun e => e.output_filename) =
      (coreStep fs pfx c row).outNames ∧ (coreStep fs pfx c row).outNames.Nodup := by
  cases hb : fs row.2.2.filepath with
  | none => simp [coreStep, hb, h1, h2]
  | some bts =>
    cases hl : hashLookup c.file_hashes bts <;>
      simp [coreStep, hb, hl, h1, h2, List.nodup_append, resolveDest_not_mem]

/-- Fold form of `coreStep_out`. -/
theorem foldCore_out (fs : String → Option (List Nat)) (pfx : Bool) :
    ∀ (rows : List Row) (c : Core),
    c.found.map (fun e => e.output_filename) = c.outNames → c.outNames.Nodup →
    (rows.foldl (coreStep fs pfx) c).found.map (fun e => e.output_filename) =
      (rows.foldl (coreStep fs pfx) c).outNames ∧
    (rows.foldl (coreStep fs pfx) c).outNames.Nodup := by
  intro rows
  induction rows with
  | nil => intro c h1 h2; exact ⟨h1, h2⟩
  | cons r rest ih =>
    intro c h1 h2
    simp only [List.foldl_cons]
    obtain ⟨k1, k2⟩ := coreStep_out fs pfx c r h1 h2
    exact ih (coreStep fs pfx c r) k1 k2

/-! ### Claim C10: CSV search-term ingestion -/

/-- The CSV term fold accumulates a map over the non-empty rows. -/
theorem readCsv_foldl_eq : ∀ (l : List (List String)) (acc : List (SearchKind × String)),
    l.foldl (fun acc row =>
      if row.isEmpty then acc
      else acc ++ [(SearchKind.account, pyStrip (row.headD ""))]) acc =
    acc ++ (l.filter (fun r => !r.isEmpty)).map
      (fun r => (SearchKind.account, pyStrip (r.headD ""))) := by
  intro l
  induction l with
  | nil => intro acc; simp
  | cons r rest ih =>
    intro acc
    simp only [List.foldl_cons]
    by_cases hr : r.isEmpty
    · rw [if_pos hr, ih, List.filter_cons_of_neg (by simp [hr])]
    · rw [if_neg hr, ih, List.filter_cons_of_pos (by simp [hr])]
      simp

/-- C10: for every CSV supplied to a retrieval run, the first row is
unconditionally skipped as a header; each remaining non-empty row
contributes exactly one account-kind search term, taken from its first
column (stripped); header cells and non-first columns never become
search terms. -/
theorem c10_csv_term_ingestion (rows : List (List String)) :
    readCsvSearchTerms rows =
      ((rows.drop 1).filter (fun r => !r.isEmpty)).map
        (fun r => (SearchKind.account, pyStrip (r.headD ""))) ∧
    ∀ t ∈ readCsvSearchTerms rows, t.1 = SearchKind.account := by
  have hmain : readCsvSearchTerms rows =
      ((rows.drop 1).filter (fun r => !r.isEmpty)).map
        (fun r => (SearchKind.account, pyStrip (r.headD ""))) := by
    cases rows with
    | nil => rfl
    | cons hdr rest =>
      rw [readCsvSearchTerms, readCsv_foldl_eq]
      simp
  refine ⟨hmain, ?_⟩
  intro t ht
  rw [hmain] at ht
  obtain ⟨r, _, rfl⟩ := List.mem_map.mp ht
  rfl

/-- Witness for C10 at a concrete CSV. -/
theorem c10_csv_term_ingestion_witness :
    readCsvSearchTerms [["id", "name"], ["123", "x"], [], [" 456 "]] =
      [(SearchKind.account, "123"), (SearchKind.account, "456")] ∧
    (SearchKind.account, "123").1 = SearchKind.account := by
  have h := c10_csv_term_ingestion [["id", "name"], ["123", "x"], [], [" 456 "]]
  refine ⟨h.1.trans (by decide), ?_⟩
  exact h.2 (SearchKind.account, "123") (by rw [h.1]; decide)

/-! ### Claim C5: `.xls` versus `.xlsx` cell handling -/

/-- C5 counterexample: a sheet whose single row holds the single numeric
cell `0` extracts to `"0"` under the `.xlsx` rule (cell kept: it is not
`None`) but to `""` under the `.xls` rule (cell dropped: `0` is falsy),
so the two formats do not apply the same cell filter. -/
theorem c5_counterexample :
    sheetTextXls [[[Cell.num 0]]] ≠ sheetTextXlsx [[[Cell.num 0]]] ∧
    sheetTextXls [[[Cell.num 0]]] = "" ∧ sheetTextXlsx [[[Cell.num 0]]] = "0" := by
  refine ⟨?_, by decide, by decide⟩
  decide

/-- On rows whose cells are all blank-or-truthy the two filters agree. -/
theorem cellFilter_eq (row : List Cell)
    (h : ∀ c ∈ row, c = Cell.blank ∨ cellTruthy c = true) :
    row.filter cellTruthy = row.filter (fun c => c ≠ Cell.blank) := by
  induction row with
  | nil => rfl
  | cons c cs ih =>
    have hc := h c (by simp)
    have hcs := ih (fun x hx => h x (by simp [hx]))
    rcases hc with hc | hc
    · subst hc
      simp [List.filter_cons, cellTruthy, hcs]
    · have hne : c ≠ Cell.blank := by
        intro hq
        subst hq
        simp [cellTruthy] at hc
      simp [List.filter_cons, hc, hne, hcs]

/-- C5 amended: `.xls` extraction applies the same row-join, blank-row
skip and newline-join structure as `.xlsx`, but filters cells by Python
truthiness instead of by `is not None`; whenever every cell is either
empty or truthy (in particular, no cell holds `0`, `0.0`, an empty
string or `False`), the two formats extract identical text. -/
theorem c5_xls_join_rule (sheets : List (List (List Cell)))
    (h : ∀ sheet ∈ sheets, ∀ row ∈ sheet, ∀ c ∈ row, c = Cell.blank ∨ cellTruthy c = true) :
    sheetTextXls sheets = sheetTextXlsx sheets := by
  rw [sheetTextXls, sheetTextXlsx]
  have hcong : ∀ row ∈ sheets.flatMap id,
      (let rt := rowTextXls row; if pyStrip rt ≠ "" then some rt else none) =
      (let rt := rowTextXlsx row; if pyStrip rt ≠ "" then some rt else none) := by
    intro row hrow
    obtain ⟨sheet, hs, hr⟩ := List.mem_flatMap.mp hrow
    have hrt : rowTextXls row = rowTextXlsx row := by
      rw [rowTextXls, rowTextXlsx, cellFilter_eq row (h sheet hs row (by simpa using hr))]
    simp only [hrt]
  rw [List.filterMap_congr hcong]

/-- Witness for C5 at a concrete workbook. -/
theorem c5_xls_join_rule_witness :
    sheetTextXls [[[Cell.str "a", Cell.blank], [Cell.num 3]]] =
      sheetTextXlsx [[[Cell.str "a", Cell.blank], [Cell.num 3]]] :=
  c5_xls_join_rule [[[Cell.str "a", Cell.blank], [Cell.num 3]]] (by decide)

/-! ### Claim C6: the extractor never raises -/

/-- Unsupported extensions extract to the empty string. -/
theorem extract_unsupported (path : String) (f : FileContent)
    (hns : pyLower (splitext path).2 ∉ supportedExts) :
    extract_text_from_file path f = "" := by
  have h1 : ¬ (pyLower (splitext path).2 = ".txt") := by
    intro h; exact hns (by rw [h]; decide)
  have h2 : ¬ (pyLower (splitext path).2 = ".csv") := by
    intro h; exact hns (by rw [h]; decide)
  have h3 : ¬ (pyLower (splitext path).2 = ".pdf") := by
    intro h; exact hns (by rw [h]; decide)
  have h4 : ¬ (pyLower (splitext path).2 = ".docx") := by
    intro h; exact hns (by rw [h]; decide)
  have h5 : ¬ (pyLower (splitext path).2 = ".xlsx") := by
    intro h; exact hns (by rw [h]; decide)
  have h6 : ¬ (pyLower (splitext path).2 = ".xls") := by
    intro h; exact hns (by rw [h]; decide)
  simp [extract_text_from_file, h1, h2, h3, h4, h5, h6]

/-- A failing parse attempt yields a bracketed diagnostic. -/
theorem extract_failure_bracketed (path : String) (f : FileContent)
    (hf : extractionFails path f = true) :
    ∃ m, extract_text_from_file path f = "[" ++ m ++ "]" := by
  simp only [extractionFails] at hf
  simp only [extract_text_from_file]
  by_cases h1 : pyLower (splitext path).2 = ".txt"
  · simp only [h1, if_true, eq_self_iff_true] at hf ⊢
    cases hr : f.rawText with
    | ok t => rw [hr] at hf; simp [Except.toBool] at hf
    | error e =>
      refine ⟨"Error extracting text: " ++ e, ?_⟩
      show ("[Error extracting text: " ++ e ++ "]" : String) =
        "[" ++ ("Error extracting text: " ++ e) ++ "]"
      have hsplit : ("[" : String) ++ "Error extracting text: " =
          "[Error extracting text: " := by decide
      rw [← hsplit]
      simp only [String.append_assoc]
  simp only [if_neg h1] at hf ⊢
  by_cases h2 : pyLower (splitext path).2 = ".csv"
  · simp only [h2, if_true, eq_self_iff_true] at hf ⊢
    cases hr : f.rawText with
    | ok t => rw [hr] at hf; simp [Except.toBool] at hf
    | error e =>
      refine ⟨"Error extracting text: " ++ e, ?_⟩
      show ("[Error extracting text: " ++ e ++ "]" : String) =
        "[" ++ ("Error extracting text: " ++ e) ++ "]"
      have hsplit : ("[" : String) ++ "Error extracting text: " =
          "[Error extracting text: " := by decide
      rw [← hsplit]
      simp only [String.append_assoc]
  simp only [if_neg h2] at hf ⊢
  by_cases h3 : pyLower (splitext path).2 = ".pdf"
  · simp only [h3, if_true, eq_self_iff_true] at hf ⊢
    cases hr : f.pdfPages with
    | ok pages => rw [hr] at hf; simp [PyResult.isOk] at hf
    | err e =>
      refine ⟨"PDF extraction error: " ++ e, ?_⟩
      show ("[PDF extraction error: " ++ e ++ "]" : String) =
        "[" ++ ("PDF extraction error: " ++ e) ++ "]"
      have hsplit : ("[" : String) ++ "PDF extraction error: " =
          "[PDF extraction error: " := by decide
      rw [← hsplit]
      simp only [String.append_assoc]
    | noLib =>
      exact ⟨"PDF - Install PyPDF2: pip install PyPDF2", by decide⟩
  simp only [if_neg h3] at hf ⊢
  by_cases h4 : pyLower (splitext path).2 = ".docx"
  · simp only [h4, if_true, eq_self_iff_true] at hf ⊢
    cases hr : f.docxParas with
    | ok paras => rw [hr] at hf; simp [PyResult.isOk] at hf
    | err e =>
      refine ⟨"DOCX extraction error: " ++ e, ?_⟩
      show ("[DOCX extraction error: " ++ e ++ "]" : String) =
        "[" ++ ("DOCX extraction error: " ++ e) ++ "]"
      have hsplit : ("[" : String) ++ "DOCX extraction error: " =
          "[DOCX extraction error: " := by decide
      rw [← hsplit]
      simp only [String.append_assoc]
    | noLib =>
      exact ⟨"DOCX - Install python-docx: pip install python-docx", by decide⟩
  simp only [if_neg h4] at hf ⊢
  by_cases h5 : pyLower (splitext path).2 = ".xlsx"
  · simp only [h5, if_true, eq_self_iff_true] at hf ⊢
    cases hr : f.xlsxSheets with
    | ok sheets => rw [hr] at hf; simp [PyResult.isOk] at hf
    | err e =>
      refine ⟨"XLSX extraction error: " ++ e, ?_⟩
      show ("[XLSX extraction error: " ++ e ++ "]" : String) =
        "[" ++ ("XLSX extraction error: " ++ e) ++ "]"
      have hsplit : ("[" : String) ++ "XLSX extraction error: " =
          "[XLSX extraction error: " := by decide
      rw [← hsplit]
      simp only [String.append_assoc]
    | noLib =>
      exact ⟨"XLSX - Install openpyxl: pip install openpyxl", by decide⟩
  simp only [if_neg h5] at hf ⊢
  by_cases h6 : pyLower (splitext path).2 = ".xls"
  · simp only [h6, if_true, eq_self_iff_true] at hf ⊢
    cases hr : f.xlsSheets with
    | ok sheets => rw [hr] at hf; simp [PyResult.isOk] at hf
    | err e =>
      refine ⟨"XLS extraction error: " ++ e, ?_⟩
      show ("[XLS extraction error: " ++ e ++ "]" : String) =
        "[" ++ ("XLS extraction error: " ++ e) ++ "]"
      have hsplit : ("[" : String) ++ "XLS extraction error: " =
          "[XLS extraction error: " := by decide
      rw [← hsplit]
      simp only [String.append_assoc]
    | noLib =>
      exact ⟨"XLS - Install xlrd: pip install xlrd", by decide⟩
  simp only [if_neg h6] at hf
  simp at hf

/-- C6: `extract_text_from_file` is a total function into strings (the
embedding has no failure channel, matching "never raises to the
caller"): a file whose extension is not among the supported formats
yields empty text, and a failing parse attempt — exception or missing
optional library — yields a short bracketed diagnostic string as the
content value. -/
theorem c6_extract_never_raises (path : String) (f : FileContent) :
    (pyLower (splitext path).2 ∉ supportedExts → extract_text_from_file path f = "") ∧
    (extractionFails path f = true →
      ∃ m, extract_text_from_file path f = "[" ++ m ++ "]") :=
  ⟨extract_unsupported path f, extract_failure_bracketed path f⟩

/-- Witness for C6: an unsupported extension extracts to empty text, and
a `.pdf` with the PDF library unavailable extracts to a bracketed
diagnostic. -/
theorem c6_extract_never_raises_witness :
    extract_text_from_file "photo.jpg"
      { rawText := .ok "", pdfPages := .noLib, docxParas := .noLib
      , xlsxSheets := .noLib, xlsSheets := .noLib } = "" ∧
    ∃ m, extract_text_from_file "doc.pdf"
      { rawText := .ok "", pdfPages := .noLib, docxParas := .noLib
      , xlsxSheets := .noLib, xlsSheets := .noLib } = "[" ++ m ++ "]" := by
  constructor
  · exact (c6_extract_never_raises "photo.jpg"
      { rawText := .ok "", pdfPages := .noLib, docxParas := .noLib
      , xlsxSheets := .noLib, xlsSheets := .noLib }).1 (by decide)
  · exact (c6_extract_never_raises "doc.pdf"
      { rawText := .ok "", pdfPages := .noLib, docxParas := .noLib
      , xlsxSheets := .noLib, xlsSheets := .noLib }).2 (by decide)

/-! ### Indexing lemmas -/

/-- The paths of the inserted rows are the joined candidate paths. -/
theorem mkRows_paths (nextId : Nat) (ic : Bool) (gs : String → Nat) (gc : String → String)
    (now : String) (l : List (String × String)) :
    (mkRows nextId ic gs gc now l).map (fun r => r.filepath) =
      l.map (fun rf => pjoin rf.1 rf.2) := by
  rw [mkRows, List.map_map]
  have h1 : l.enum.map ((fun r => r.filepath) ∘ (fun kf =>
      ({ id := nextId + kf.1, filename := kf.2.2, filepath := pjoin kf.2.1 kf.2.2
       , file_extension := pyLower (splitext kf.2.2).2
       , file_size := gs (pjoin kf.2.1 kf.2.2)
       , content_text := if ic then gc (pjoin kf.2.1 kf.2.2) else ""
       , indexed_at := now } : FileRecord))) =
      l.enum.map ((fun rf => pjoin rf.1 rf.2) ∘ Prod.snd) := rfl
  rw [h1, ← List.map_map, List.enum_map_snd]

/-- What membership in the candidate list implies. -/
theorem indexCandidates_sub (db : List FileRecord) (tree : FsTree)
    (rootPath excludeStr : String) (extensions : List String) (incremental : Bool) :
    ∀ rf ∈ indexCandidates db tree rootPath excludeStr extensions incremental,
      rf ∈ walkFiles (parseExclude excludeStr) rootPath tree ∧
      pyLower (splitext rf.2).2 ∈ extensions ∧
      (incremental = true → pjoin rf.1 rf.2 ∉ db.map (fun r => r.filepath)) := by
  intro rf hrf
  obtain ⟨a, ha, heq⟩ := List.mem_filterMap.mp hrf
  simp only at heq
  by_cases hext : pyLower (splitext a.2).2 ∈ extensions
  · rw [if_pos hext] at heq
    cases hinc : incremental with
    | false =>
      rw [hinc] at heq
      simp only [if_neg Bool.false_ne_true] at heq
      cases heq
      exact ⟨ha, hext, by simp [hinc]⟩
    | true =>
      rw [hinc] at heq
      simp only [if_pos rfl] at heq
      by_cases hmem : pjoin a.1 a.2 ∈ db.map (fun r => r.filepath)
      · rw [if_pos hmem] at heq
        cases heq
      · rw [if_neg hmem] at heq
        cases heq
        exact ⟨ha, hext, fun _ => hmem⟩
  · rw [if_neg hext] at heq
    cases heq

/-- What yields a candidate in incremental mode. -/
theorem indexCandidates_complete (db : List FileRecord) (tree : FsTree)
    (rootPath excludeStr : String) (extensions : List String) (rf : String × String)
    (hw : rf ∈ walkFiles (parseExclude excludeStr) rootPath tree)
    (hext : pyLower (splitext rf.2).2 ∈ extensions)
    (hnew : pjoin rf.1 rf.2 ∉ db.map (fun r => r.filepath)) :
    rf ∈ indexCandidates db tree rootPath excludeStr extensions true := by
  apply List.mem_filterMap.mpr
  exact ⟨rf, hw, by
    simp only [if_pos hext, if_pos rfl, if_neg hnew]
    simp⟩

/-- Pruning keeps a directory's name. -/
theorem pruneTree_name (exclude : List String) (t : FsTree) :
    (pruneTree exclude t).name = t.name := by
  cases t
  rfl

mutual

/-- Walking with exclusions equals an exclusion-free walk of the tree
with every excluded subtree deleted: pruned subtrees are simply never
visited. -/
theorem walkFiles_prune (exclude : List String) (path : String) :
    ∀ (t : FsTree), walkFiles exclude path t = walkFiles [] path (pruneTree exclude t)
  | .node nm files subdirs => by
    rw [walkFiles, pruneTree, walkFiles]
    rw [walkList_prune exclude path subdirs]

/-- List version of `walkFiles_prune`. -/
theorem walkList_prune (exclude : List String) (path : String) :
    ∀ (l : List FsTree), walkList exclude path l = walkList [] path (pruneList exclude l)
  | [] => rfl
  | d :: ds => by
    rw [walkList, pruneList]
    by_cases hd : pyLower d.name ∈ exclude
    · rw [if_pos hd, if_pos hd]
      rw [walkList_prune exclude path ds]
      rfl
    · rw [if_neg hd, if_neg hd]
      have hrhs : walkList [] path ([pruneTree exclude d] ++ pruneList exclude ds) =
          walkFiles [] (path ++ "/" ++ (pruneTree exclude d).name) (pruneTree exclude d) ++
          walkList [] path (pruneList exclude ds) := by
        rw [List.singleton_append, walkList]
        rw [if_neg (by simp)]
      rw [hrhs, pruneTree_name,
        walkFiles_prune exclude (path ++ "/" ++ d.name) d,
        walkList_prune exclude path ds]

end

/-! ### Claims C3, C4, C7: indexing -/

/-- After one incremental run, a second incremental run over the same
tree, extensions and exclusions finds no candidate files. -/
theorem second_run_no_candidates (db : List FileRecord) (nextId : Nat) (tree : FsTree)
    (rootPath excludeStr : String) (extensions : List String) (ic : Bool)
    (gs : String → Nat) (gc : String → String) (now : String) :
    indexCandidates
      (index_directory db nextId tree rootPath excludeStr extensions ic true gs gc now).1
      tree rootPath excludeStr extensions true = [] := by
  rw [indexCandidates]
  apply List.filterMap_eq_nil_iff.mpr
  intro rf hrf
  simp only []
  by_cases hext : pyLower (splitext rf.2).2 ∈ extensions
  · rw [if_pos hext]
    have hmem : pjoin rf.1 rf.2 ∈
        (index_directory db nextId tree rootPath excludeStr extensions ic true gs gc now).1.map
          (fun r => r.filepath) := by
      by_cases hdb : pjoin rf.1 rf.2 ∈ db.map (fun r => r.filepath)
      · rw [index_directory]
        simp only []
        by_cases hE : (indexCandidates db tree rootPath excludeStr extensions true).isEmpty
        · rw [if_pos hE]
          simpa using hdb
        · rw [if_neg hE]
          simp only [List.map_append]
          exact List.mem_append_left _ (by simpa using hdb)
      · have hc : rf ∈ indexCandidates db tree rootPath excludeStr extensions true :=
          indexCandidates_complete db tree rootPath excludeStr extensions rf hrf hext hdb
        have hE : ¬ (indexCandidates db tree rootPath excludeStr extensions true).isEmpty := by
          intro hq
          rw [List.isEmpty_iff.mp hq] at hc
          simp at hc
        rw [index_directory]
        simp only []
        rw [if_neg hE]
        simp only [List.map_append]
        apply List.mem_append_right
        rw [mkRows_paths]
        exact List.mem_map_of_mem _ hc
    simp [hmem]
  · rw [if_neg hext]

/-- C3: running the indexer twice in incremental mode over the same
tree, root, extensions and exclusions, with no files added or removed in
between, indexes zero files on the second run and leaves the catalog
unchanged. -/
theorem c3_incremental_idempotence (db : List FileRecord) (nextId : Nat) (tree : FsTree)
    (rootPath excludeStr : String) (extensions : List String) (ic : Bool)
    (gs : String → Nat) (gc : String → String) (now now2 : String) :
    (index_directory
      (index_directory db nextId tree rootPath excludeStr extensions ic true gs gc now).1
      (index_directory db nextId tree rootPath excludeStr extensions ic true gs gc now).2.1
      tree rootPath excludeStr extensions ic true gs gc now2).2.2 = 0 ∧
    (index_directory
      (index_directory db nextId tree rootPath excludeStr extensions ic true gs gc now).1
      (index_directory db nextId tree rootPath excludeStr extensions ic true gs gc now).2.1
      tree rootPath excludeStr extensions ic true gs gc now2).1 =
    (index_directory db nextId tree rootPath excludeStr extensions ic true gs gc now).1 := by
  have h0 := second_run_no_candidates db nextId tree rootPath excludeStr extensions ic gs gc now
  constructor <;>
    · rw [index_directory]
      simp [h0]

/-- C7: in an incremental run a record already present in the catalog is
left exactly in place (the prefix of the catalog before the run is
unchanged, so every stored field of every prior record is identical),
and no inserted record carries a filepath already present. -/
theorem c7_incremental_immutability (db : List FileRecord) (nextId : Nat) (tree : FsTree)
    (rootPath excludeStr : String) (extensions : List String) (ic : Bool)
    (gs : String → Nat) (gc : String → String) (now : String) :
    (index_directory db nextId tree rootPath excludeStr extensions ic true gs gc now).1.take
      db.length = db ∧
    ∀ s ∈ (index_directory db nextId tree rootPath excludeStr extensions ic true gs gc
        now).1.drop db.length,
      s.filepath ∉ db.map (fun r => r.filepath) := by
  rw [index_directory]
  simp only []
  by_cases hE : (indexCandidates db tree rootPath excludeStr extensions true).isEmpty
  · rw [if_pos hE]
    constructor
    · simp [List.take_length]
    · simp [List.drop_length]
  · rw [if_neg hE]
    constructor
    · simp only [if_pos rfl]
      simp [List.take_left]
    · intro s hs
      have hs2 : s ∈ mkRows nextId ic gs gc now
          (indexCandidates db tree rootPath excludeStr extensions true) := by
        simp only [if_pos rfl] at hs
        simpa [List.drop_left] using hs
      have hp : s.filepath ∈ (mkRows nextId ic gs gc now
          (indexCandidates db tree rootPath excludeStr extensions true)).map
          (fun r => r.filepath) := List.mem_map_of_mem _ hs2
      rw [mkRows_paths] at hp
      obtain ⟨rf, hrf, hpeq⟩ := List.mem_map.mp hp
      intro hmem
      rw [← hpeq] at hmem
      exact (indexCandidates_sub db tree rootPath excludeStr extensions true rf hrf).2.2
        rfl hmem

/-- Witness record for the indexing claims. -/
def wrec : FileRecord :=
  { id := 0, filename := "a.txt", filepath := "/r/a.txt", file_extension := ".txt"
  , file_size := 3, content_text := "", indexed_at := "T0" }

/-- Record the witness second file would be indexed as. -/
def wrecB : FileRecord :=
  { id := 1, filename := "b.txt", filepath := "/r/b.txt", file_extension := ".txt"
  , file_size := 3, content_text := "", indexed_at := "T1" }

/-- Witness for C7 at a concrete incremental run: the pre-existing
record survives in place, and the freshly inserted record's path was not
in the catalog before. -/
theorem c7_incremental_immutability_witness :
    (index_directory [wrec] 1 (FsTree.node "r" ["a.txt", "b.txt"] []) "/r" "" [".txt"]
      false true (fun _ => 3) (fun _ => "") "T1").1.take 1 = [wrec] ∧
    wrecB.filepath ∉ [wrec].map (fun r => r.filepath) := by
  have h := c7_incremental_immutability [wrec] 1 (FsTree.node "r" ["a.txt", "b.txt"] [])
    "/r" "" [".txt"] false (fun _ => 3) (fun _ => "") "T1"
  exact ⟨h.1, h.2 wrecB (by decide)⟩

/-- C4: exclusion correctness. Walking with exclusions is the same as an
exclusion-free walk of the tree in which every subdirectory whose
lower-cased name matches an exclusion entry has been deleted — a pruned
subtree is never descended into — and consequently every record the run
leaves in the catalog either predates the run or stems from a file of
that pruned tree, regardless of its extension. -/
theorem c4_exclusion_pruning (db : List FileRecord) (nextId : Nat) (tree : FsTree)
    (rootPath excludeStr : String) (extensions : List String) (ic incremental : Bool)
    (gs : String → Nat) (gc : String → String) (now : String) :
    walkFiles (parseExclude excludeStr) rootPath tree =
      walkFiles [] rootPath (pruneTree (parseExclude excludeStr) tree) ∧
    ∀ r ∈ (index_directory db nextId tree rootPath excludeStr extensions ic incremental
        gs gc now).1,
      r ∈ db ∨
      ∃ rf ∈ walkFiles [] rootPath (pruneTree (parseExclude excludeStr) tree),
        r.filepath = pjoin rf.1 rf.2 := by
  refine ⟨walkFiles_prune _ _ _, ?_⟩
  intro r hr
  rw [index_directory] at hr
  simp only [] at hr
  by_cases hE : (indexCandidates db tree rootPath excludeStr extensions incremental).isEmpty
  · rw [if_pos hE] at hr
    cases hinc : incremental with
    | true =>
      rw [hinc] at hr
      simp at hr
      exact Or.inl hr
    | false =>
      rw [hinc] at hr
      simp at hr
  · rw [if_neg hE] at hr
    rcases List.mem_append.mp hr with hdb | hnew
    · cases hinc : incremental with
      | true =>
        rw [hinc] at hdb
        simp at hdb
        exact Or.inl hdb
      | false =>
        rw [hinc] at hdb
        simp at hdb
    · right
      have hp : r.filepath ∈ (mkRows nextId ic gs gc now
          (indexCandidates db tree rootPath excludeStr extensions incremental)).map
          (fun x => x.filepath) := List.mem_map_of_mem _ hnew
      rw [mkRows_paths] at hp
      obtain ⟨rf, hrf, hpeq⟩ := List.mem_map.mp hp
      have hw := (indexCandidates_sub db tree rootPath excludeStr extensions incremental
        rf hrf).1
      rw [← walkFiles_prune (parseExclude excludeStr) rootPath tree]
      exact ⟨rf, hw, hpeq.symm⟩

/-- Witness for C4 at a concrete tree with an excluded `Temp` subtree:
the record indexed for the surviving file stems from the pruned walk. -/
theorem c4_exclusion_pruning_witness :
    ({ id := 7, filename := "a.txt", filepath := "/r/a.txt", file_extension := ".txt"
     , file_size := 3, content_text := "", indexed_at := "T1" } : FileRecord) ∈
      ([] : List FileRecord) ∨
    ∃ rf ∈ walkFiles [] "/r" (pruneTree (parseExclude "temp")
        (FsTree.node "r" ["a.txt"] [FsTree.node "Temp" ["b.txt"] []])),
      ({ id := 7, filename := "a.txt", filepath := "/r/a.txt", file_extension := ".txt"
       , file_size := 3, content_text := "", indexed_at := "T1" } : FileRecord).filepath =
        pjoin rf.1 rf.2 := by
  have h := c4_exclusion_pruning [] 7 (FsTree.node "r" ["a.txt"] [FsTree.node "Temp"
    ["b.txt"] []]) "/r" "temp" [".txt"] false false (fun _ => 3) (fun _ => "") "T1"
  exact h.2 _ (by decide)

/-! ### Claim C1: the indexed_at date range -/

/-- A catalog record indexed during the day 2024-03-15: it matches the
account term `123456` and the `.pdf` extension filter. -/
def c1rec : FileRecord :=
  { id := 1, filename := "123456_contract.pdf", filepath := "/srv/docs/123456_contract.pdf"
  , file_extension := ".pdf", file_size := 10, content_text := ""
  , indexed_at := "2024-03-15T10:00:00" }

/-- C1 counterexample: with date-to set to the record's own indexing
day, the record — which the same query returns when no date bound is
set — is excluded from the results, so the date-to bound is not
inclusive of its day. -/
theorem c1_counterexample :
    filteredResults [c1rec] SearchKind.account "123456" "" "" [".pdf"] = [c1rec] ∧
    filteredResults [c1rec] SearchKind.account "123456" "" "2024-03-15" [".pdf"] = [] ∧
    dateOk "" "2024-03-15" c1rec = false := by
  exact ⟨by decide, by decide, by decide⟩

/-- C1 amended: the filter compares the full ISO timestamp string with
the `YYYY-MM-DD` bound under SQLite text ordering. The date-from bound
is inclusive of the date-from day — any record stamped on that day
passes the lower comparison, and with date-to unset it passes the whole
filter whenever its stamp is below the far-future sentinel — while the
date-to bound excludes the date-to day: any record whose stamp properly
extends the date-to string (every `isoformat` stamp of that day does)
fails the filter. -/
theorem c1_date_bounds (date_from date_to rest : String) (r : FileRecord) :
    (r.indexed_at = date_from ++ rest → sqliteTextLe date_from r.indexed_at = true) ∧
    (date_from ≠ "" → date_to = "" → r.indexed_at = date_from ++ rest →
      sqliteTextLe r.indexed_at "2100-12-31" = true →
      dateOk date_from date_to r = true) ∧
    (date_to ≠ "" → rest ≠ "" → r.indexed_at = date_to ++ rest →
      dateOk date_from date_to r = false) := by
  refine ⟨?_, ?_, ?_⟩
  · intro hr
    rw [hr, sqliteTextLe, stringDataAppend]
    exact charListLe_self_append _ _
  · intro hdf hdt hr hsent
    rw [dateOk, if_pos (Or.inl hdf), if_pos hdf, if_neg (by simp [hdt])]
    have hlo : sqliteTextLe date_from r.indexed_at = true := by
      rw [hr, sqliteTextLe, stringDataAppend]
      exact charListLe_self_append _ _
    rw [hlo, hsent]
    rfl
  · intro hdt hrest hr
    rw [dateOk, if_pos (Or.inr hdt), if_pos hdt]
    have hhi : sqliteTextLe r.indexed_at date_to = false := by
      rw [hr, sqliteTextLe, stringDataAppend]
      exact charListLe_append_self _ _ (stringDataNeNil hrest)
    rw [hhi]
    simp

/-- Witness for C1 amended, at the concrete record `c1rec`. -/
theorem c1_date_bounds_witness :
    sqliteTextLe "2024-03-15" c1rec.indexed_at = true ∧
    dateOk "2024-03-15" "" c1rec = true ∧
    dateOk "" "2024-03-15" c1rec = false := by
  have h := c1_date_bounds "2024-03-15" "2024-03-15" "T10:00:00" c1rec
  have h2 := c1_date_bounds "2024-03-15" "" "T10:00:00" c1rec
  refine ⟨h.1 (by decide), ?_, h.2.2 (by decide) (by decide) (by decide)⟩
  exact h2.2.1 (by decide) rfl (by decide) (by decide)

/-! ### Claims C2, C8, C9: the retrieval loop -/

/-- The found rows and duplicate rows of a full run equal their
first-occurrence specifications over the flattened matched rows. -/
theorem run_found_dups_spec (db : List FileRecord) (fs : String → Option (List Nat))
    (terms : List (SearchKind × String)) (date_from date_to : String)
    (allowed : List String) (pfx : Bool) :
    (runRetrieval db fs terms date_from date_to allowed pfx).found.map foundProj =
      foundProjSpec fs [] (matchedRows db date_from date_to allowed terms) ∧
    (runRetrieval db fs terms date_from date_to allowed pfx).dups =
      dupsSpec fs [] (matchedRows db date_from date_to allowed terms) := by
  have hrc := (run_components db fs date_from date_to allowed pfx terms initState).1
  have hinv : ∀ b, hashLookup (coreOf initState).file_hashes b = firstWithOpt fs [] b := by
    intro b
    rfl
  obtain ⟨g1, g2, _⟩ := foldCore_spec fs pfx (matchedRows db date_from date_to allowed terms)
    (coreOf initState) [] hinv
  constructor
  · have hfound : (runRetrieval db fs terms date_from date_to allowed pfx).found =
        ((matchedRows db date_from date_to allowed terms).foldl (coreStep fs pfx)
          (coreOf initState)).found := congrArg Core.found hrc
    rw [hfound, g1]
    rfl
  · have hdups : (runRetrieval db fs terms date_from date_to allowed pfx).dups =
        ((matchedRows db date_from date_to allowed terms).foldl (coreStep fs pfx)
          (coreOf initState)).dups := congrArg Core.dups hrc
    rw [hdups, g2]
    rfl

/-- C2: duplicate detection. The projection of `found_files.csv` to
(kind, term, filename, duplicate flag) equals the specification that
lists every readable matched row — so identical-content files are all
copied — flagged duplicate exactly when an earlier readable row of the
same run (same or different search term) has identical byte content;
`duplicates_detected.csv` equals the specification that records every
such later occurrence, naming the first occurrence's filename. The
first occurrence of a content is therefore never flagged. -/
theorem c2_duplicate_detection (db : List FileRecord) (fs : String → Option (List Nat))
    (terms : List (SearchKind × String)) (date_from date_to : String)
    (allowed : List String) (pfx : Bool) :
    (runRetrieval db fs terms date_from date_to allowed pfx).found.map foundProj =
      foundProjSpec fs [] (matchedRows db date_from date_to allowed terms) ∧
    (runRetrieval db fs terms date_from date_to allowed pfx).dups =
      dupsSpec fs [] (matchedRows db date_from date_to allowed terms) :=
  run_found_dups_spec db fs terms date_from date_to allowed pfx

/-- Entries of the found-rows specification carry the kind and term of
some matched row. -/
theorem mem_foundProjSpec (fs : String → Option (List Nat)) :
    ∀ (L prev : List Row) (x : SearchKind × String × String × Bool),
    x ∈ foundProjSpec fs prev L → ∃ row ∈ L, x.1 = row.1 ∧ x.2.1 = row.2.1 := by
  intro L
  induction L with
  | nil =>
    intro prev x hx
    rw [foundProjSpec] at hx
    simp at hx
  | cons row rest ih =>
    intro prev x hx
    rw [foundProjSpec] at hx
    rcases List.mem_append.mp hx with hhead | htail
    · cases hb : rowBytes fs row with
      | none => rw [hb] at hhead; simp at hhead
      | some b =>
        rw [hb] at hhead
        simp only [List.mem_singleton] at hhead
        subst hhead
        exact ⟨row, by simp, rfl, rfl⟩
    · obtain ⟨row2, hrow2, h1, h2⟩ := ih (prev ++ [row]) x htail
      exact ⟨row2, by simp [hrow2], h1, h2⟩

/-- C8: a search term matching zero catalog rows is recorded (term and
kind) in the missing list exactly once per zero-match term, in order;
`total_found` is the sum of per-term match counts, so a zero-match term
contributes zero; and no found row carries a zero-match term — while the
rest of the run is unaffected (the characterizations cover all terms,
so a missing term never aborts the run). -/
theorem c8_missing_terms (db : List FileRecord) (fs : String → Option (List Nat))
    (terms : List (SearchKind × String)) (date_from date_to : String)
    (allowed : List String) (pfx : Bool) :
    (runRetrieval db fs terms date_from date_to allowed pfx).missing =
      missingSpec db date_from date_to allowed terms ∧
    (runRetrieval db fs terms date_from date_to allowed pfx).total_found =
      (terms.map (fun kt =>
        (filteredResults db kt.1 kt.2 date_from date_to allowed).length)).sum ∧
    ∀ kt ∈ terms, filteredResults db kt.1 kt.2 date_from date_to allowed = [] →
      (kt.2, kt.1) ∈ (runRetrieval db fs terms date_from date_to allowed pfx).missing ∧
      ∀ e ∈ (runRetrieval db fs terms date_from date_to allowed pfx).found,
        ¬ (e.search_type = kt.1 ∧ e.search_term = kt.2) := by
  obtain ⟨_, htot, hmiss⟩ := run_components db fs date_from date_to allowed pfx terms initState
  have hm : (runRetrieval db fs terms date_from date_to allowed pfx).missing =
      missingSpec db date_from date_to allowed terms := by
    rw [runRetrieval, hmiss]
    rfl
  have ht : (runRetrieval db fs terms date_from date_to allowed pfx).total_found =
      (terms.map (fun kt =>
        (filteredResults db kt.1 kt.2 date_from date_to allowed).length)).sum := by
    rw [runRetrieval, htot]
    simp [initState]
  refine ⟨hm, ht, ?_⟩
  intro kt hkt hemp
  constructor
  · rw [hm, missingSpec]
    exact List.mem_filterMap.mpr ⟨kt, hkt, by simp [hemp]⟩
  · intro e he hcontra
    have hproj : foundProj e ∈
        (runRetrieval db fs terms date_from date_to allowed pfx).found.map foundProj :=
      List.mem_map_of_mem foundProj he
    rw [(run_found_dups_spec db fs terms date_from date_to allowed pfx).1] at hproj
    obtain ⟨row, hrow, h1, h2⟩ := mem_foundProjSpec fs
      (matchedRows db date_from date_to allowed terms) [] (foundProj e) hproj
    obtain ⟨kt2, hkt2, hrow2⟩ := List.mem_flatMap.mp hrow
    obtain ⟨rec, hrec, hreceq⟩ := List.mem_map.mp hrow2
    have hkind : row.1 = kt2.1 := by rw [← hreceq]
    have hterm : row.2.1 = kt2.2 := by rw [← hreceq]
    have he1 : e.search_type = row.1 := h1
    have he2 : e.search_term = row.2.1 := h2
    have hfe : filteredResults db kt2.1 kt2.2 date_from date_to allowed = [] := by
      have hk1 : kt2.1 = kt.1 := by rw [← hkind, ← he1, hcontra.1]
      have hk2 : kt2.2 = kt.2 := by rw [← hterm, ← he2, hcontra.2]
      rw [hk1, hk2, hemp]
    rw [hfe] at hrec
    simp at hrec

/-- Witness for C8 at a concrete run with one zero-match term. -/
theorem c8_missing_terms_witness :
    ("zzz", SearchKind.account) ∈
      (runRetrieval [] (fun _ => none) [(SearchKind.account, "zzz")] "" "" [] false).missing ∧
    (runRetrieval [] (fun _ => none) [(SearchKind.account, "zzz")] "" "" [] false).total_found
      = 0 := by
  have h := c8_missing_terms [] (fun _ => none) [(SearchKind.account, "zzz")] "" "" [] false
  refine ⟨(h.2.2 (SearchKind.account, "zzz") (by decide) (by decide)).1, ?_⟩
  rw [h.2.1]
  decide

/-- C9: collision resolution. The resolved destination name is never one
that already exists in the output directory; a non-colliding name is
kept unchanged; a colliding name receives the first free numeric suffix
`_1`, `_2`, … before the extension (every smaller suffix being
occupied); and consequently the output filenames of all copied rows of a
run — whether the collision was within one search term or across terms —
are pairwise distinct files on disk. -/
theorem c9_collision_resolution (db : List FileRecord) (fs : String → Option (List Nat))
    (terms : List (SearchKind × String)) (date_from date_to : String)
    (allowed : List String) (pfx : Bool) (existing : List String) (filename : String) :
    resolveDest existing filename ∉ existing ∧
    (filename ∉ existing → resolveDest existing filename = filename) ∧
    (filename ∈ existing → ∃ k, 1 ≤ k ∧
      resolveDest existing filename =
        mkCand (splitext filename).1 (splitext filename).2 k ∧
      ∀ m, 1 ≤ m → m < k →
        mkCand (splitext filename).1 (splitext filename).2 m ∈ existing) ∧
    ((runRetrieval db fs terms date_from date_to allowed pfx).found.map
      (fun e => e.output_filename)).Nodup := by
  refine ⟨resolveDest_not_mem existing filename, ?_,
    resolveDest_collision existing filename, ?_⟩
  · intro h
    rw [resolveDest, if_neg h]
  · have hrc := (run_components db fs date_from date_to allowed pfx terms initState).1
    have hout := foldCore_out fs pfx (matchedRows db date_from date_to allowed terms)
      (coreOf initState) rfl List.nodup_nil
    have hfound : (runRetrieval db fs terms date_from date_to allowed pfx).found =
        ((matchedRows db date_from date_to allowed terms).foldl (coreStep fs pfx)
          (coreOf initState)).found := congrArg Core.found hrc
    rw [hfound, hout.1]
    exact hout.2

/-- Witness for C9: a fresh name is kept; a colliding name gets the
first free suffix. -/
theorem c9_collision_resolution_witness :
    resolveDest ["a.txt"] "b.txt" = "b.txt" ∧
    (∃ k, 1 ≤ k ∧
      resolveDest ["a.txt"] "a.txt" = mkCand (splitext "a.txt").1 (splitext "a.txt").2 k ∧
      ∀ m, 1 ≤ m → m < k →
        mkCand (splitext "a.txt").1 (splitext "a.txt").2 m ∈ ["a.txt"]) := by
  have h1 := c9_collision_resolution [] (fun _ => none) [] "" "" [] false ["a.txt"] "b.txt"
  have h2 := c9_collision_resolution [] (fun _ => none) [] "" "" [] false ["a.txt"] "a.txt"
  exact ⟨h1.2.1 (by decide), h2.2.2.1 (by decide)⟩

end Ribbindexer
